import Mathlib

/-!
Verification development for the PVL label scanner (`src/main.rs`).

The program is embedded shallowly: the text buffer is a `List Char` of
single-byte characters (the source reads `content.as_bytes()[i] as char`),
the cursor position is a `Nat`, and every fallible Rust function returns an
`Outcome`: `ok` for `Ok`, `err` for `Err`, and `panic` for a Rust panic
(`unwrap` of an `Err`, or an out-of-bounds string slice).  Loops are encoded
as fuel-indexed structural recursions; the wrappers pass `content.length + 1`
fuel, which is shown (or checked concretely) to be enough, so the `panic`
returned on fuel exhaustion is never reached.
-/

namespace Pvl

/-- Error kinds of the scanner, mirroring `enum Error` in the source
(`Eof`, `Syntax(String)`, `CommentIsntComment`, `Programming(String)`,
`InvalidType`, `ValueTypeParseError`). -/
inductive Error where
  | eof
  | syn (msg : String)
  | commentIsntComment
  | programming (msg : String)
  | invalidType
  | valueTypeParseError
deriving DecidableEq

/-- Result of running a piece of Rust code: `Ok`, `Err`, or a panic. -/
inductive Outcome (α : Type) where
  | ok : α → Outcome α
  | err : Error → Outcome α
  | panic : Outcome α
deriving DecidableEq

/-- `enum Symbol` from the source. -/
inductive Symbol where
  | Pointer (value : List Char)
  | Key (value : List Char)
  | Group
  | Object
  | BlankLine
  | ValueLineContinuation
deriving DecidableEq

/-- `enum ValueType` from the source. -/
inductive ValueType where
  | Undetermined
  | Array
  | String
  | Float
  | Integer
  | Bool
  | Flag
  | BitMask
deriving DecidableEq

/-- Encodes the anchored regex `^"(TRUE|FALSE)"$` (`BOOL_DETERMINATE`):
the whole text is a quoted TRUE or a quoted FALSE. -/
def boolDeterminate (s : List Char) : Bool :=
  decide (s = "\"TRUE\"".data ∨ s = "\"FALSE\"".data)

/-- Encodes the anchored regex `^".*"$` (`STRING_DETERMINATE`): an opening
quote, any characters other than a newline (`.` does not match `\n`), and a
closing quote. -/
def stringDeterminate (s : List Char) : Bool :=
  match s with
  | [] => false
  | c :: rest =>
    decide (c = '"' ∧ rest ≠ [] ∧ rest.getLast? = some '"' ∧ '\n' ∉ rest.dropLast)

/-- Encodes the anchored regex `^\(.*\)$` (`ARRAY_DETERMINATE`). -/
def arrayDeterminate (s : List Char) : Bool :=
  match s with
  | [] => false
  | c :: rest =>
    decide (c = '(' ∧ rest ≠ [] ∧ rest.getLast? = some ')' ∧ '\n' ∉ rest.dropLast)

/-- Encodes `FLOAT_DETERMINATE = ^-*[0-9]+\.[0-9][ ]*` used with `is_match`
(no end anchor, and the trailing `[ ]*` can match nothing, so only the prefix
`-*[0-9]+\.[0-9]` matters).  Because `-`, a digit, and `.` are pairwise
distinct character classes, the regex decomposition is forced: all leading
minus signs, then at least one digit, then a dot, then one digit. -/
def floatDeterminate (s : List Char) : Bool :=
  let t := s.dropWhile (fun c => c = '-')
  match t.dropWhile Char.isDigit with
  | c :: c2 :: _ => decide (c = '.') && decide (t.takeWhile Char.isDigit ≠ []) && c2.isDigit
  | _ => false

/-- Encodes `INTEGER_DETERMINATE = ^-*[0-9]+[^#]+[ ]*` used with `is_match`
(no end anchor; the trailing `[ ]*` can match nothing).  The pattern matches
iff after the leading minus signs there is a digit followed by at least one
character other than `#`: `[0-9]+` may stop after one digit, and any later
digit is itself not `#`, so only the first two characters after the minus
run are decisive. -/
def integerDeterminate (s : List Char) : Bool :=
  match s.dropWhile (fun c => c = '-') with
  | a :: b :: _ => a.isDigit && decide (b ≠ '#')
  | _ => false

/-- Character class `[a-zA-Z_]` of `FLAG_DETERMINATE`. -/
def isAlphaUnd (c : Char) : Bool := c.isAlpha || c = '_'

/-- Encodes the anchored regex `^[a-zA-Z_]+[a-zA-Z0-9]+$` (`FLAG_DETERMINATE`):
the text splits as a nonempty run of letters/underscores followed by a
nonempty run of alphanumerics.  Larger split points only make the second run
easier to satisfy, so it suffices to test the largest admissible split point
`min j (n-1)`, where `j` is the longest `[a-zA-Z_]` run at the start. -/
def flagDeterminate (s : List Char) : Bool :=
  let n := s.length
  let j := (s.takeWhile isAlphaUnd).length
  decide (2 ≤ n) && decide (1 ≤ j) && (s.drop (min j (n - 1))).all Char.isAlphanum

/-- Character class `[1-8]` of `BITMASK_DETERMINATE`. -/
def isRadixDig (c : Char) : Bool := decide ('1' ≤ c ∧ c ≤ '8')

/-- Character class `[0-1]` of `BITMASK_DETERMINATE`. -/
def isBinDig (c : Char) : Bool := c = '0' || c = '1'

/-- Encodes the anchored regex `^[1-8]*#[0-1]+#$` (`BITMASK_DETERMINATE`):
a (possibly empty) radix run, `#`, a nonempty run of binary digits, `#`. -/
def bitmaskDeterminate (s : List Char) : Bool :=
  match s.dropWhile isRadixDig with
  | c :: rest =>
    decide (c = '#') && decide (rest.takeWhile isBinDig ≠ []) &&
      decide (rest.dropWhile isBinDig = ['#'])
  | [] => false

/-- `struct Value` from the source: a raw text plus its classified type. -/
structure Value where
  value_raw : List Char
  value_type : ValueType
deriving DecidableEq

/-- `Value::determine_type`: the ordered classification rules, first match
wins. -/
def Value.determine_type (value_raw : List Char) : ValueType :=
  if boolDeterminate value_raw then .Bool
  else if stringDeterminate value_raw then .String
  else if arrayDeterminate value_raw then .Array
  else if floatDeterminate value_raw then .Float
  else if integerDeterminate value_raw then .Integer
  else if flagDeterminate value_raw then .Flag
  else if bitmaskDeterminate value_raw then .BitMask
  else .Undetermined

/-- `Value::new`. -/
def Value.new (value_raw : List Char) : Value :=
  ⟨value_raw, Value.determine_type value_raw⟩

/-- Rust's `str::split(",")`: the pieces between commas, keeping empty
pieces (`"".split(",")` yields one empty piece). -/
def splitOnComma : List Char → List (List Char)
  | [] => [[]]
  | c :: rest =>
    if c = ',' then [] :: splitOnComma rest
    else
      match splitOnComma rest with
      | [] => [[c]]
      | p :: ps => (c :: p) :: ps

/-- `Value::parse_array`: requires the `Array` type tag, then splits the
raw text (the whole of it, parentheses included) on commas and classifies
each piece as its own `Value`. -/
def Value.parse_array (v : Value) : Outcome (List Value) :=
  if v.value_type ≠ .Array then .err .invalidType
  else .ok ((splitOnComma v.value_raw).map Value.new)

/-- Rust's `str::parse::<bool>()`: accepts exactly `true` and `false`. -/
def rustParseBool (s : List Char) : Option Bool :=
  if s = "true".data then some true
  else if s = "false".data then some false
  else none

/-- `Value::parse_bool`: requires the `Bool` type tag, then converts the raw
text with `parse::<bool>()`. -/
def Value.parse_bool (v : Value) : Outcome Bool :=
  if v.value_type ≠ .Bool then .err .invalidType
  else
    match rustParseBool v.value_raw with
    | some b => .ok b
    | none => .err .valueTypeParseError

/-- `struct KeyValuePairRaw` from the source. -/
structure KeyValuePairRaw where
  key : Symbol
  value : Value
deriving DecidableEq

/-- `PvlReader::char_at`: the byte at absolute offset `i`, or `Eof`. -/
def char_at (content : List Char) (i : Nat) : Outcome Char :=
  match content.get? i with
  | some c => .ok c
  | none => .err .eof

/-- `PvlReader::next`: increments the position unconditionally and returns
the character at the new position (an `Eof` error past the end).  The pair
is (returned result, new position). -/
def next (content : List Char) (pos : Nat) : Outcome Char × Nat :=
  (char_at content (pos + 1), pos + 1)

/-- `PvlReader::is_eof`. -/
def is_eof (content : List Char) (pos : Nat) : Bool :=
  decide (pos ≥ content.length)

/-- `PvlReader::jump`: fails with `Eof` when already at the end, otherwise
advances by `num_chars`, clamped to the buffer length.  Returns the new
position. -/
def jump (content : List Char) (pos num_chars : Nat) : Outcome Nat :=
  if pos ≥ content.length then .err .eof
  else .ok (if pos + num_chars ≥ content.length then content.length else pos + num_chars)

/-- `PvlReader::is_at_line_start`: true at offset 0 or right after a CR or
LF.  The guard `pos - 1 > len` (usize arithmetic, reachable only for
`pos ≥ len + 2`) yields `Eof`; for `pos = len + 1` the `char_at(pos-1)`
unwrap panics. -/
def is_at_line_start (content : List Char) (pos : Nat) : Outcome Bool :=
  if pos > 0 ∧ pos - 1 > content.length then .err .eof
  else if pos = 0 then .ok true
  else
    match content.get? (pos - 1) with
    | none => .panic
    | some c => .ok (c = '\r' || c = '\n')

/-- `PvlReader::is_at_multiline_comment_start`: `/*` at the current
position; false near the end of the buffer. -/
def is_at_multiline_comment_start (content : List Char) (pos : Nat) : Bool :=
  if pos ≥ content.length ∨ pos + 1 ≥ content.length then false
  else decide (content.get? pos = some '/' ∧ content.get? (pos + 1) = some '*')

/-- `PvlReader::is_at_multiline_comment_end`: `*/` at the current position;
false near the end of the buffer. -/
def is_at_multiline_comment_end (content : List Char) (pos : Nat) : Bool :=
  if pos + 1 ≥ content.length then false
  else decide (content.get? pos = some '*' ∧ content.get? (pos + 1) = some '/')

/-- The comment-consuming loop of `PvlReader::skip_multiline_comment`:
`while !is_at_multiline_comment_end { comment_text.push(next().unwrap()) }`.
`next().unwrap()` panics when it overruns the buffer.  Fuel-indexed; the
fuel-exhaustion branch is unreachable at the fuel used by the wrapper. -/
def comment_loop (content : List Char) : Nat → Nat → List Char → Outcome (List Char × Nat)
  | 0, _, _ => .panic
  | fuel + 1, pos, acc =>
    if is_at_multiline_comment_end content pos then .ok (acc, pos)
    else
      match content.get? (pos + 1) with
      | none => .panic
      | some c => comment_loop content fuel (pos + 1) (acc ++ [c])

/-- `PvlReader::skip_multiline_comment`: checks for the opening `/*`, runs
the loop, jumps two characters past the closing `*/`, and returns
`comment_text[1..len-2]` (a Rust slice that panics when `len < 3`). -/
def skip_multiline_comment (content : List Char) (pos : Nat) : Outcome (List Char × Nat) :=
  if ¬ is_at_multiline_comment_start content pos then .err .commentIsntComment
  else
    match comment_loop content (content.length + 1) pos [] with
    | .ok (acc, p) =>
      match jump content p 2 with
      | .ok p2 =>
        if acc.length < 3 then .panic
        else .ok ((acc.drop 1).take (acc.length - 3), p2)
      | _ => .panic
    | .err e => .err e
    | .panic => .panic

/-- `PvlReader::is_at_value_line_continuation`: at a line start, probes
whether the next 37 columns are all spaces; the probe fails with `Eof` when
fewer than 38 characters remain.  The `is_at_line_start` unwrap can panic. -/
def is_at_value_line_continuation (content : List Char) (pos : Nat) : Outcome Bool :=
  match is_at_line_start content pos with
  | .ok false => .ok false
  | .ok true =>
    if pos + 37 ≥ content.length then .err .eof
    else .ok (decide ((content.drop pos).take 37 = List.replicate 37 ' '))
  | .err _ => .panic
  | .panic => .panic

/-- Message of the `Syntax` error raised at a continuation line. -/
def contMsg : String := "Value line continuation without a preceeding key value pair"

/-- Message of the `Programming` error raised away from a line start. -/
def progMsg : String := "Attempt to read a key value pair when not at beginning of a line"

/-- The symbol-reading loop of `PvlReader::read_symbol`: pushes characters
until a line terminator or `=`; after each push, `next().unwrap()` panics if
it overruns the buffer. -/
def read_symbol_loop (content : List Char) : Nat → Nat → List Char → Outcome (List Char × Nat)
  | 0, _, _ => .panic
  | fuel + 1, pos, acc =>
    match content.get? pos with
    | none => .ok (acc, pos)
    | some c =>
      if c = '\n' ∨ c = '\r' ∨ c = '=' then .ok (acc, pos)
      else
        match content.get? (pos + 1) with
        | none => .panic
        | some _ => read_symbol_loop content fuel (pos + 1) (acc ++ [c])

/-- Whitespace in the sense of Rust's `str::trim` (`char::is_whitespace`),
restricted to the characters a single byte can denote. -/
def isWhiteChar (c : Char) : Bool :=
  c = ' ' || c = '\t' || c = '\n' || c = '\x0b' || c = '\x0c' || c = '\r' ||
    c = '\u0085' || c = '\u00A0'

/-- Rust's `str::trim`: drop whitespace from both ends. -/
def trimChars (s : List Char) : List Char :=
  ((s.dropWhile isWhiteChar).reverse.dropWhile isWhiteChar).reverse

/-- `PvlReader::read_symbol`: after the continuation-line and line-start
checks (whose unwraps panic on `Eof`), reads the symbol text, trims it, and
classifies it: empty, leading `^`, `GROUP`, `OBJECT`, otherwise a key. -/
def read_symbol (content : List Char) (pos : Nat) : Outcome (Symbol × Nat) :=
  match is_at_value_line_continuation content pos with
  | .ok true => .err (.syn contMsg)
  | .ok false =>
    match is_at_line_start content pos with
    | .ok false => .err (.programming progMsg)
    | .ok true =>
      match read_symbol_loop content (content.length + 1) pos [] with
      | .ok (acc, p) =>
        let symbol_text := trimChars acc
        if symbol_text = [] then .ok (.BlankLine, p)
        else if symbol_text.head? = some '^' then .ok (.Pointer symbol_text, p)
        else if symbol_text = "GROUP".data then .ok (.Group, p)
        else if symbol_text = "OBJECT".data then .ok (.Object, p)
        else .ok (.Key symbol_text, p)
      | .err e => .err e
      | .panic => .panic
    | .err _ => .panic
    | .panic => .panic
  | .err _ => .panic
  | .panic => .panic

/-- The line-reading loop of `PvlReader::read_remaining_line`: at the top of
each iteration, a current `=` makes the reader `jump(2)` (skipping the `=`
and the character after it, clamped at the buffer end); then the current
character (unwrap: panic at the end of the buffer) is pushed unless it is a
line terminator, and the cursor advances. -/
def read_line_loop (content : List Char) : Nat → Nat → List Char → Outcome (List Char × Nat)
  | 0, _, _ => .panic
  | fuel + 1, pos, acc =>
    match content.get? pos with
    | none => .ok (acc, pos)
    | some c0 =>
      let pos1 := if c0 = '=' then min (pos + 2) content.length else pos
      match content.get? pos1 with
      | none => .panic
      | some c =>
        if c = '\n' ∨ c = '\r' then .ok (acc, pos1)
        else read_line_loop content fuel (pos1 + 1) (acc ++ [c])

/-- `PvlReader::read_remaining_line`: runs the loop from the current
position and trims the collected text. -/
def read_remaining_line (content : List Char) (pos : Nat) : Outcome (List Char × Nat) :=
  match read_line_loop content (content.length + 1) pos [] with
  | .ok (acc, p) => .ok (trimChars acc, p)
  | .err e => .err e
  | .panic => .panic

/-- The continuation loop of `PvlReader::read_key_value_pair_raw`:
`while let Ok(b) = is_at_value_line_continuation()` — an `Err` from the
probe exits the loop, `Ok(false)` breaks, `Ok(true)` appends the next
line's trimmed remainder and advances past its terminator. -/
def cont_loop (content : List Char) : Nat → Nat → List Char → Outcome (List Char × Nat)
  | 0, _, _ => .panic
  | fuel + 1, pos, acc =>
    match is_at_value_line_continuation content pos with
    | .panic => .panic
    | .err _ => .ok (acc, pos)
    | .ok false => .ok (acc, pos)
    | .ok true =>
      match read_remaining_line content pos with
      | .ok (line, p) => cont_loop content fuel (p + 1) (acc ++ line)
      | _ => .panic

/-- `PvlReader::read_key_value_pair_raw`: the two entry checks, then the
symbol, the first line's remainder, `next()`, and the continuation loop.
The `key_res.unwrap()` at the end turns a symbol-reading error into a
panic; since the entry checks already passed, `read_symbol` cannot return
an error here, so mapping its `err` to `panic` is both unreachable and
faithful to the eventual unwrap. -/
def read_key_value_pair_raw (content : List Char) (pos : Nat) :
    Outcome (KeyValuePairRaw × Nat) :=
  match is_at_value_line_continuation content pos with
  | .ok true => .err (.syn contMsg)
  | .ok false =>
    match is_at_line_start content pos with
    | .ok false => .err (.programming progMsg)
    | .ok true =>
      match read_symbol content pos with
      | .ok (sym, pos1) =>
        match read_remaining_line content pos1 with
        | .ok (line1, pos2) =>
          match cont_loop content (content.length + 1) (pos2 + 1) line1 with
          | .ok (value_string, pos3) => .ok (⟨sym, Value.new value_string⟩, pos3)
          | _ => .panic
        | _ => .panic
      | _ => .panic
    | .err _ => .panic
    | .panic => .panic
  | .err _ => .panic
  | .panic => .panic

/-- Spec-side description of one line pass of `read_remaining_line`, on the
line's characters (terminator excluded): an `=` inspected at the start of an
iteration is skipped together with the character after it; the character the
skip lands on is kept (even if it is another `=`) unless it is the line
terminator, in which case reading stops. -/
def lineSpecEq : List Char → List Char
  | [] => []
  | c :: rest =>
    if c = '=' then
      match rest with
      | [] => []
      | [_] => []
      | _ :: c2 :: t => c2 :: lineSpecEq t
    else c :: lineSpecEq rest

/-- Spec-side classification of a trimmed symbol text, following the spec's
words: empty text is a blank line; a leading caret is a pointer carrying the
full text; exactly `GROUP` / `OBJECT` are the structural keywords; anything
else is a key. -/
def symbolClassSpec (t : List Char) : Symbol :=
  if t = [] then .BlankLine
  else if t.head? = some '^' then .Pointer t
  else if t = "GROUP".data then .Group
  else if t = "OBJECT".data then .Object
  else .Key t

/-- A continuation line: 37 blank columns, the remainder, a line feed. -/
def contLine (r : List Char) : List Char := List.replicate 37 ' ' ++ r ++ ['\n']

/-- The concatenation of a run of continuation lines. -/
def contJoin (conts : List (List Char)) : List Char := (conts.map contLine).flatten

/-- Concrete input for the array claim: a label line with an array value,
followed by a second line long enough for the continuation probe. -/
def c1content : List Char := "BAD_VALUE = (1,2,3)\nSOMETHING_ELSE = 12345\n".data

/-- Concrete input for the comment claim. -/
def c2content : List Char := "/* hello */".data

/-- Concrete input for the continuation-stitching claim: a value line and a
continuation line, both with CRLF terminators. -/
def c4content : List Char := "KEY = a\r\n".data ++ List.replicate 37 ' ' ++ "b\r\n".data

/-- Concrete input for the stray-`=` claim. -/
def c7content : List Char := "a=b=c\n".data

end Pvl

/-- Sanity check: `2#0101#` classifies as BitMask territory in the grammar,
but the ordered rules are only reached if the earlier ones fail. -/
example : Pvl.Value.determine_type "(1,2,3)".data = .Array := by decide

example : Pvl.Value.determine_type "5".data = .Undetermined := by decide
example : Pvl.Value.determine_type "55".data = .Integer := by decide
example : Pvl.Value.determine_type "-5".data = .Undetermined := by decide
example : Pvl.Value.determine_type "3.14".data = .Float := by decide
example : Pvl.Value.determine_type "\"TRUE\"".data = .Bool := by decide
example : Pvl.Value.determine_type "\"a string\"".data = .String := by decide
example : Pvl.Value.determine_type "SOMEFLAG".data = .Flag := by decide
example : Pvl.Value.determine_type "2#0101#".data = .Undetermined ∨
    Pvl.Value.determine_type "2#0101#".data = .BitMask := by decide
example : Pvl.splitOnComma "(1,2,3)".data = ["(1".data, "2".data, "3)".data] := by decide

example : Pvl.skip_multiline_comment "/* hello */".data 0 = .ok (" hello".data, 11) := by
  decide

example : Pvl.read_remaining_line "a=b=c\n".data 0 = .ok ("a=c".data, 5) := by decide

example :
    Pvl.read_key_value_pair_raw "BAD_VALUE = (1,2,3)\nSOMETHING_ELSE = 12345\n".data 0 =
      .ok (⟨.Key "BAD_VALUE".data, Pvl.Value.new "(1,2,3)".data⟩, 20) := by decide

example : Pvl.read_symbol "AB".data 0 = .panic := by decide

example :
    Pvl.read_key_value_pair_raw
        ("KEY = a\r\n".data ++ List.replicate 37 ' ' ++ "b\r\n".data) 0 =
      .ok (⟨.Key "KEY".data, Pvl.Value.new "a".data⟩, 8) := by decide

namespace Pvl

/-! ### List and position helpers -/

/-- The element at `pos` is the head of `drop pos`. -/
lemma get?_of_drop : ∀ (l : List Char) (pos : Nat) {c : Char} {t : List Char},
    l.drop pos = c :: t → l.get? pos = some c := by
  intro l pos
  induction pos generalizing l with
  | zero => intro c t h; simp only [List.drop_zero] at h; subst h; rfl
  | succ n ih =>
    intro c t h
    cases l with
    | nil => simp at h
    | cons a l' => exact ih l' h

/-- Dropping one more character peels the head off. -/
lemma drop_succ_of_drop {l : List Char} {pos : Nat} {c : Char} {t : List Char}
    (h : l.drop pos = c :: t) : l.drop (pos + 1) = t := by
  have h2 := congrArg (List.drop 1) h
  rw [List.drop_drop] at h2
  simpa using h2

/-- Dropping past a known prefix exposes the suffix. -/
lemma drop_add_of_drop {l : List Char} {pos : Nat} {s u : List Char}
    (h : l.drop pos = s ++ u) : l.drop (pos + s.length) = u := by
  have h2 := congrArg (List.drop s.length) h
  rwa [List.drop_drop, List.drop_left] at h2

/-- A nonempty remainder means the position is inside the buffer. -/
lemma pos_lt_of_drop {l : List Char} {pos : Nat} {c : Char} {t : List Char}
    (h : l.drop pos = c :: t) : pos < l.length := by
  by_contra hge
  rw [List.drop_eq_nil_of_le (by omega)] at h
  exact List.noConfusion h

/-- Length bookkeeping for a decomposed remainder. -/
lemma length_of_drop {l : List Char} {pos : Nat} {u : List Char}
    (h : l.drop pos = u) (hpos : pos ≤ l.length) : l.length = pos + u.length := by
  have h2 := congrArg List.length h
  rw [List.length_drop] at h2
  omega

/-- `dropWhile` passes over a run of satisfying characters. -/
lemma dropWhile_replicate_append (p : Char → Bool) (a : Char) (hp : p a = true) :
    ∀ (m : Nat) (l : List Char),
      (List.replicate m a ++ l).dropWhile p = l.dropWhile p := by
  intro m
  induction m with
  | zero => intro l; simp
  | succ k ih =>
    intro l
    simp [List.replicate_succ, List.dropWhile_cons, hp, ih l]

/-- Trimming ignores a run of leading spaces. -/
lemma trimChars_replicate_space (n : Nat) (r : List Char) :
    trimChars (List.replicate n ' ' ++ r) = trimChars r := by
  unfold trimChars
  rw [dropWhile_replicate_append isWhiteChar ' ' (by decide)]

/-- The tail of a list not ending in `=` does not end in `=` either. -/
lemma getLast?_tail_ne {c : Char} {s : List Char}
    (h : (c :: s).getLast? ≠ some '=') : s.getLast? ≠ some '=' := by
  cases s with
  | nil => simp
  | cons a l => rwa [List.getLast?_cons_cons] at h

/-- A list avoiding `=` does not end in `=`. -/
lemma getLast?_ne_of_not_mem {s : List Char} (h : '=' ∉ s) : s.getLast? ≠ some '=' := by
  intro hl
  exact h (List.mem_of_mem_getLast? hl)

/-- `lineSpecEq` is the identity on texts without `=`. -/
lemma lineSpecEq_no_eq : ∀ (s : List Char), '=' ∉ s → lineSpecEq s = s := by
  intro s
  induction s with
  | nil => intro _; rfl
  | cons c t ih =>
    intro h
    have hc : c ≠ '=' := fun hc => h (hc ▸ List.mem_cons_self c t)
    have ht : '=' ∉ t := fun hm => h (List.mem_cons_of_mem c hm)
    rw [lineSpecEq.eq_def]
    simp only [if_neg hc]
    rw [ih ht]

end Pvl

namespace Pvl

/-! ### Loop characterizations -/

/-- The symbol loop collects exactly the characters before the first line
terminator or `=`, leaving the cursor on that terminator. -/
lemma read_symbol_loop_spec (content : List Char) :
    ∀ (fuel : Nat) (s : List Char) (pos : Nat) (acc rest : List Char) (t : Char),
      content.drop pos = s ++ t :: rest →
      (∀ c ∈ s, c ≠ '\n' ∧ c ≠ '\r' ∧ c ≠ '=') →
      (t = '\n' ∨ t = '\r' ∨ t = '=') →
      s.length < fuel →
      read_symbol_loop content fuel pos acc = .ok (acc ++ s, pos + s.length) := by
  intro fuel
  induction fuel with
  | zero => intro s pos acc rest t _ _ _ hfuel; omega
  | succ f ih =>
    intro s pos acc rest t hdrop hs ht hfuel
    cases s with
    | nil =>
      have hget : content.get? pos = some t := get?_of_drop content pos (by simpa using hdrop)
      simp only [read_symbol_loop, hget]
      rw [if_pos ht]
      simp
    | cons c s' =>
      have hdrop' : content.drop pos = c :: (s' ++ t :: rest) := by simpa using hdrop
      have hget : content.get? pos = some c := get?_of_drop content pos hdrop'
      have hc := hs c (List.mem_cons_self c s')
      have hdrop1 : content.drop (pos + 1) = s' ++ t :: rest := drop_succ_of_drop hdrop'
      have hget1 : ∃ x, content.get? (pos + 1) = some x := by
        cases s' with
        | nil => exact ⟨t, get?_of_drop content (pos + 1) (by simpa using hdrop1)⟩
        | cons a l => exact ⟨a, get?_of_drop content (pos + 1) (by simpa using hdrop1)⟩
      obtain ⟨x, hx⟩ := hget1
      have hnotterm : ¬ (c = '\n' ∨ c = '\r' ∨ c = '=') := by
        rintro (h | h | h)
        · exact hc.1 h
        · exact hc.2.1 h
        · exact hc.2.2 h
      simp only [read_symbol_loop, hget]
      rw [if_neg hnotterm]
      simp only [hx]
      rw [ih s' (pos + 1) (acc ++ [c]) rest t hdrop1
        (fun d hd => hs d (List.mem_cons_of_mem c hd)) ht (by simp at hfuel; omega)]
      have h1 : (acc ++ [c]) ++ s' = acc ++ c :: s' := by simp
      have h2 : pos + 1 + s'.length = pos + (c :: s').length := by simp; omega
      rw [h1, h2]

/-- Unfolding equation: a non-`=` character is kept. -/
lemma lineSpecEq_cons_ne (c : Char) (s : List Char) (hc : c ≠ '=') :
    lineSpecEq (c :: s) = c :: lineSpecEq s := by
  rw [lineSpecEq.eq_def]
  simp [if_neg hc]

/-- Unfolding equation: an `=` followed by a single character skips both
(the skip lands on the line terminator). -/
lemma lineSpecEq_eq_two (d : Char) : lineSpecEq ['=', d] = [] := by
  rw [lineSpecEq.eq_def]
  simp

/-- Unfolding equation: an `=` skips itself and the next character, keeps
the character after that, and continues. -/
lemma lineSpecEq_eq_cons3 (d e : Char) (s : List Char) :
    lineSpecEq ('=' :: d :: e :: s) = e :: lineSpecEq s := by
  rw [lineSpecEq.eq_def]
  simp

/-- The line loop collects exactly `lineSpecEq` of the characters before the
first line terminator — each `=` met at the top of an iteration is skipped
together with the character after it, the landed-on character is kept — and
leaves the cursor on the terminator.  Requires the segment not to end in `=`
(a trailing `=` would make the skip jump over the terminator). -/
lemma read_line_loop_spec (content : List Char) :
    ∀ (fuel : Nat) (s : List Char) (pos : Nat) (acc rest : List Char) (t : Char),
      content.drop pos = s ++ t :: rest →
      (t = '\n' ∨ t = '\r') →
      '\n' ∉ s → '\r' ∉ s →
      s.getLast? ≠ some '=' →
      s.length < fuel →
      read_line_loop content fuel pos acc = .ok (acc ++ lineSpecEq s, pos + s.length) := by
  intro fuel
  induction fuel with
  | zero => intro s pos acc rest t _ _ _ _ _ hfuel; omega
  | succ f ih =>
    intro s pos acc rest t hdrop ht hn hr hlast hfuel
    have htne : t ≠ '=' := by rcases ht with rfl | rfl <;> decide
    cases s with
    | nil =>
      have hget : content.get? pos = some t := get?_of_drop content pos (by simpa using hdrop)
      simp only [read_line_loop, hget]
      rw [if_neg htne]
      simp only [hget]
      rw [if_pos ht]
      simp [lineSpecEq]
    | cons c s' =>
      by_cases hc : c = '='
      · subst hc
        cases s' with
        | nil => simp at hlast
        | cons d s2 =>
          have hposlt : pos < content.length :=
            pos_lt_of_drop (show content.drop pos = '=' :: (d :: s2 ++ t :: rest) by
              simpa using hdrop)
          have hlen0 := length_of_drop hdrop (le_of_lt hposlt)
          have hlen2 : pos + 2 ≤ content.length := by
            simp at hlen0; omega
          have hmin : min (pos + 2) content.length = pos + 2 := Nat.min_eq_left hlen2
          have hget : content.get? pos = some '=' :=
            get?_of_drop content pos (by simpa using hdrop)
          have hdrop2 : content.drop (pos + 2) = s2 ++ t :: rest := by
            have h2 : content.drop pos = ['=', d] ++ (s2 ++ t :: rest) := by
              simpa using hdrop
            simpa using drop_add_of_drop h2
          cases s2 with
          | nil =>
            have hget2 : content.get? (pos + 2) = some t :=
              get?_of_drop content (pos + 2) (by simpa using hdrop2)
            simp only [read_line_loop, hget, eq_self_iff_true, if_true, hmin, hget2]
            rw [if_pos ht]
            simp [lineSpecEq_eq_two]
          | cons e s3 =>
            have hdrop2' : content.drop (pos + 2) = e :: (s3 ++ t :: rest) := by
              simpa using hdrop2
            have hget2 : content.get? (pos + 2) = some e :=
              get?_of_drop content (pos + 2) hdrop2'
            have he_n : e ≠ '\n' := by
              intro h; subst h; exact hn (by simp)
            have he_r : e ≠ '\r' := by
              intro h; subst h; exact hr (by simp)
            have hnotterm : ¬ (e = '\n' ∨ e = '\r') := by
              rintro (h | h)
              · exact he_n h
              · exact he_r h
            have hdrop3 : content.drop (pos + 2 + 1) = s3 ++ t :: rest :=
              drop_succ_of_drop hdrop2'
            have hn3 : '\n' ∉ s3 := fun h => hn (by simp [h])
            have hr3 : '\r' ∉ s3 := fun h => hr (by simp [h])
            have hlast3 : s3.getLast? ≠ some '=' :=
              getLast?_tail_ne (getLast?_tail_ne (getLast?_tail_ne hlast))
            simp only [read_line_loop, hget, eq_self_iff_true, if_true, hmin, hget2]
            rw [if_neg hnotterm]
            rw [ih s3 (pos + 2 + 1) (acc ++ [e]) rest t hdrop3
              ht hn3 hr3 hlast3 (by simp at hfuel; omega)]
            rw [lineSpecEq_eq_cons3]
            have h1 : (acc ++ [e]) ++ lineSpecEq s3 = acc ++ e :: lineSpecEq s3 := by
              simp
            have h2 : pos + 2 + 1 + s3.length = pos + ('=' :: d :: e :: s3).length := by
              simp; omega
            rw [h1, h2]
      · have hdrop' : content.drop pos = c :: (s' ++ t :: rest) := by simpa using hdrop
        have hget : content.get? pos = some c := get?_of_drop content pos hdrop'
        have hc_n : c ≠ '\n' := by intro h; subst h; exact hn (by simp)
        have hc_r : c ≠ '\r' := by intro h; subst h; exact hr (by simp)
        have hnotterm : ¬ (c = '\n' ∨ c = '\r') := by
          rintro (h | h)
          · exact hc_n h
          · exact hc_r h
        have hdrop1 : content.drop (pos + 1) = s' ++ t :: rest := drop_succ_of_drop hdrop'
        simp only [read_line_loop, hget]
        rw [if_neg hc]
        simp only [hget]
        rw [if_neg hnotterm]
        rw [ih s' (pos + 1) (acc ++ [c]) rest t hdrop1 ht
          (fun h => hn (List.mem_cons_of_mem c h)) (fun h => hr (List.mem_cons_of_mem c h))
          (getLast?_tail_ne hlast) (by simp at hfuel; omega)]
        rw [lineSpecEq_cons_ne c s' hc]
        have h1 : (acc ++ [c]) ++ lineSpecEq s' = acc ++ c :: lineSpecEq s' := by simp
        have h2 : pos + 1 + s'.length = pos + (c :: s').length := by simp; omega
        rw [h1, h2]

end Pvl

namespace Pvl

/-! ### Wrapper and probe characterizations -/

/-- A successful index lookup is in bounds. -/
lemma lt_length_of_get? {l : List Char} {i : Nat} {c : Char}
    (h : l.get? i = some c) : i < l.length := by
  by_contra hge
  rw [List.get?_eq_none.mpr (by omega)] at h
  exact Option.noConfusion h

/-- A nonempty remainder means the position is inside the buffer. -/
lemma pos_lt_of_drop_ne_nil {l : List Char} {pos : Nat}
    (h : l.drop pos ≠ []) : pos < l.length := by
  by_contra hge
  exact h (List.drop_eq_nil_of_le (by omega))

/-- Right after a line feed, the reader is at a line start. -/
lemma is_at_line_start_newline {content : List Char} {pos : Nat}
    (hnl : content.get? (pos - 1) = some '\n') (hpos : 1 ≤ pos) :
    is_at_line_start content pos = .ok true := by
  have hlt : pos - 1 < content.length := lt_length_of_get? hnl
  unfold is_at_line_start
  rw [if_neg (by omega)]
  rw [if_neg (by omega)]
  rw [hnl]
  simp

/-- `read_remaining_line` on a segment ending at a line terminator returns
the trimmed `lineSpecEq` text and stops on the terminator. -/
lemma read_remaining_line_ok (content : List Char) (pos : Nat) (s rest : List Char) (t : Char)
    (hdrop : content.drop pos = s ++ t :: rest)
    (ht : t = '\n' ∨ t = '\r')
    (hn : '\n' ∉ s) (hr : '\r' ∉ s) (hlast : s.getLast? ≠ some '=') :
    read_remaining_line content pos = .ok (trimChars (lineSpecEq s), pos + s.length) := by
  have hposlt : pos < content.length := pos_lt_of_drop_ne_nil (by rw [hdrop]; simp)
  have hlen := length_of_drop hdrop (le_of_lt hposlt)
  unfold read_remaining_line
  rw [read_line_loop_spec content (content.length + 1) s pos [] rest t hdrop ht hn hr hlast
    (by simp at hlen; omega)]
  simp

/-- `read_symbol` under its preconditions returns the spec-side
classification of the trimmed symbol text and stops on the terminator. -/
lemma read_symbol_ok (content : List Char) (pos : Nat) (s rest : List Char) (t : Char)
    (hcont : is_at_value_line_continuation content pos = .ok false)
    (hstart : is_at_line_start content pos = .ok true)
    (hdrop : content.drop pos = s ++ t :: rest)
    (hs : ∀ c ∈ s, c ≠ '\n' ∧ c ≠ '\r' ∧ c ≠ '=')
    (ht : t = '\n' ∨ t = '\r' ∨ t = '=') :
    read_symbol content pos = .ok (symbolClassSpec (trimChars s), pos + s.length) := by
  have hposlt : pos < content.length := pos_lt_of_drop_ne_nil (by rw [hdrop]; simp)
  have hlen := length_of_drop hdrop (le_of_lt hposlt)
  simp only [read_symbol, hcont, hstart]
  rw [read_symbol_loop_spec content (content.length + 1) s pos [] rest t hdrop hs ht
    (by simp at hlen; omega)]
  simp only [List.nil_append, symbolClassSpec]
  split_ifs <;> rfl

/-- The continuation probe at a line start with enough lookahead reports
whether the next 37 columns are blank. -/
lemma iavlc_at_line_start {content : List Char} {pos : Nat}
    (hstart : is_at_line_start content pos = .ok true)
    (hlt : pos + 37 < content.length) :
    is_at_value_line_continuation content pos =
      .ok (decide ((content.drop pos).take 37 = List.replicate 37 ' ')) := by
  unfold is_at_value_line_continuation
  rw [hstart]
  rw [if_neg (by omega)]

/-- The continuation probe at a line start near the end of input fails with
`Eof`. -/
lemma iavlc_eof {content : List Char} {pos : Nat}
    (hstart : is_at_line_start content pos = .ok true)
    (hge : pos + 37 ≥ content.length) :
    is_at_value_line_continuation content pos = .err .eof := by
  unfold is_at_value_line_continuation
  rw [hstart]
  rw [if_pos (by omega)]

/-- The continuation probe away from a line start reports false. -/
lemma iavlc_not_line_start {content : List Char} {pos : Nat}
    (hstart : is_at_line_start content pos = .ok false) :
    is_at_value_line_continuation content pos = .ok false := by
  unfold is_at_value_line_continuation
  rw [hstart]

end Pvl

namespace Pvl

/-- The continuation loop consumes exactly the run of continuation lines,
appending each line's trimmed remainder in order, and stops at the end of
input (where the probe's `Eof` exits the `while let`). -/
lemma cont_loop_spec (content : List Char) :
    ∀ (conts : List (List Char)) (fuel pos : Nat) (acc : List Char),
      content.drop pos = contJoin conts →
      (∀ r ∈ conts, '\n' ∉ r ∧ '\r' ∉ r ∧ '=' ∉ r) →
      1 ≤ pos → content.get? (pos - 1) = some '\n' →
      conts.length < fuel →
      cont_loop content fuel pos acc =
        .ok (acc ++ (conts.map trimChars).flatten, content.length) := by
  intro conts
  induction conts with
  | nil =>
    intro fuel pos acc hdrop _ hpos hnl hfuel
    have hple : pos ≤ content.length := by
      have := lt_length_of_get? hnl; omega
    have hlen := length_of_drop hdrop hple
    have hpos_eq : pos = content.length := by
      simp [contJoin] at hlen; omega
    cases fuel with
    | zero => omega
    | succ f =>
      have hstart : is_at_line_start content pos = .ok true :=
        is_at_line_start_newline hnl hpos
      have hiavlc : is_at_value_line_continuation content pos = .err .eof :=
        iavlc_eof hstart (by omega)
      simp only [cont_loop, hiavlc]
      rw [hpos_eq]
      simp
  | cons r rs ih =>
    intro fuel pos acc hdrop hgood hpos hnl hfuel
    cases fuel with
    | zero => omega
    | succ f =>
      have hshape : contJoin (r :: rs) =
          (List.replicate 37 ' ' ++ r) ++ '\n' :: contJoin rs := by
        simp [contJoin, contLine]
      rw [hshape] at hdrop
      have hposlt : pos < content.length := pos_lt_of_drop_ne_nil (by rw [hdrop]; simp)
      have hlen := length_of_drop hdrop (le_of_lt hposlt)
      have hstart : is_at_line_start content pos = .ok true :=
        is_at_line_start_newline hnl hpos
      have h37 : pos + 37 < content.length := by
        simp at hlen; omega
      have htake : (content.drop pos).take 37 = List.replicate 37 ' ' := by
        rw [hdrop]
        have h1 : (List.replicate 37 ' ' ++ r) ++ '\n' :: contJoin rs
            = List.replicate 37 ' ' ++ (r ++ '\n' :: contJoin rs) := by simp
        rw [h1]
        simp
      have hiavlc : is_at_value_line_continuation content pos = .ok true := by
        rw [iavlc_at_line_start hstart h37]
        simp [htake]
      have hrgood := hgood r (List.mem_cons_self r rs)
      have hmem_n : '\n' ∉ List.replicate 37 ' ' ++ r := by
        intro h
        rcases List.mem_append.mp h with h1 | h1
        · exact absurd (List.eq_of_mem_replicate h1) (by decide)
        · exact hrgood.1 h1
      have hmem_r : '\r' ∉ List.replicate 37 ' ' ++ r := by
        intro h
        rcases List.mem_append.mp h with h1 | h1
        · exact absurd (List.eq_of_mem_replicate h1) (by decide)
        · exact hrgood.2.1 h1
      have hmem_e : '=' ∉ List.replicate 37 ' ' ++ r := by
        intro h
        rcases List.mem_append.mp h with h1 | h1
        · exact absurd (List.eq_of_mem_replicate h1) (by decide)
        · exact hrgood.2.2 h1
      have hlast : (List.replicate 37 ' ' ++ r).getLast? ≠ some '=' :=
        getLast?_ne_of_not_mem hmem_e
      have hline := read_remaining_line_ok content pos
        (List.replicate 37 ' ' ++ r) (contJoin rs) '\n' hdrop (Or.inl rfl)
        hmem_n hmem_r hlast
      rw [lineSpecEq_no_eq _ hmem_e, trimChars_replicate_space] at hline
      have hdropnext : content.drop (pos + (List.replicate 37 ' ' ++ r).length) =
          '\n' :: contJoin rs := drop_add_of_drop hdrop
      have hdropnext1 : content.drop (pos + (List.replicate 37 ' ' ++ r).length + 1) =
          contJoin rs := drop_succ_of_drop hdropnext
      have hget_nl : content.get? (pos + (List.replicate 37 ' ' ++ r).length + 1 - 1) =
          some '\n' := by
        simpa using get?_of_drop content _ hdropnext
      simp only [cont_loop, hiavlc, hline]
      rw [ih f (pos + (List.replicate 37 ' ' ++ r).length + 1) (acc ++ trimChars r)
        hdropnext1 (fun x hx => hgood x (List.mem_cons_of_mem r hx)) (by omega) hget_nl
        (by simp at hfuel; omega)]
      simp

end Pvl

namespace Pvl

/-! ### Claim theorems -/

/-- C1 (counterexample): on the input `BAD_VALUE = (1,2,3)` (padded with a
second line so the continuation probe stays in bounds), reading the
key-value pair does yield a Value classified Array with raw text `(1,2,3)`,
but `parse_array` does NOT return three elements classified Integer with raw
texts `1`, `2`, `3`: the split is applied to the full raw text, parentheses
included. -/
theorem c1_parse_array_counterexample :
    read_key_value_pair_raw c1content 0 =
      .ok (⟨.Key "BAD_VALUE".data, Value.new "(1,2,3)".data⟩, 20)
    ∧ (Value.new "(1,2,3)".data).value_type = .Array
    ∧ ¬ ((Value.new "(1,2,3)".data).parse_array =
        .ok [⟨"1".data, .Integer⟩, ⟨"2".data, .Integer⟩, ⟨"3".data, .Integer⟩]) := by
  decide

/-- C1 (amended): reading `BAD_VALUE = (1,2,3)` yields a Value classified
Array with raw text `(1,2,3)`; `parse_array` splits that full raw text on
commas, producing three elements with raw texts `(1`, `2`, `3)` classified
Undetermined, Undetermined, Integer respectively. -/
theorem c1_parse_array_amended :
    read_key_value_pair_raw c1content 0 =
      .ok (⟨.Key "BAD_VALUE".data, Value.new "(1,2,3)".data⟩, 20)
    ∧ (Value.new "(1,2,3)".data).value_type = .Array
    ∧ (Value.new "(1,2,3)".data).parse_array =
        .ok [⟨"(1".data, .Undetermined⟩, ⟨"2".data, .Undetermined⟩,
             ⟨"3)".data, .Integer⟩] := by
  decide

/-- C2 (counterexample): skipping the comment `/* hello */` returns
`" hello"` — the interior text with its final character dropped (the slice
`[1..len-2]` removes one character too many at the end) — not the full
interior `" hello "`. -/
theorem c2_comment_counterexample :
    skip_multiline_comment c2content 0 = .ok (" hello".data, 11)
    ∧ " hello".data ≠ " hello ".data := by
  decide

/-- C2 (amended): skipping `/* hello */` returns the interior text minus
its final character, `" hello"`, and leaves the cursor immediately past the
closing `*/` (position 11 = the buffer length). -/
theorem c2_comment_amended :
    skip_multiline_comment c2content 0 = .ok (" hello".data, c2content.length) := by
  decide

/-- C3 (counterexample): `next` increments the position without clamping:
starting from 0 on a 1-character buffer, two advances leave the position at
2, strictly greater than the buffer length. -/
theorem c3_cursor_bounds_counterexample :
    (next ['a'] 0).2 = 1
    ∧ (next ['a'] 1).2 = 2
    ∧ ¬ ((next ['a'] 1).2 ≤ List.length ['a']) := by
  decide

/-- C3 (amended): `jump` always clamps, so any successful jump lands in
`[0, length]`; `next` increments by exactly one, so it preserves the bound
only when invoked at a position strictly below the length — advancing at or
past the end exceeds the bound. -/
theorem c3_cursor_bounds_amended (content : List Char) (pos n pos2 : Nat) :
    (jump content pos n = .ok pos2 → pos2 ≤ content.length)
    ∧ (pos < content.length → (next content pos).2 ≤ content.length) := by
  constructor
  · intro h
    unfold jump at h
    by_cases hp : pos ≥ content.length
    · rw [if_pos hp] at h
      exact Outcome.noConfusion h
    · rw [if_neg hp] at h
      simp only [Outcome.ok.injEq] at h
      split_ifs at h with hcase
      · omega
      · omega
  · intro h
    simp only [next]
    omega

/-- C3 (witness): the amended bounds at concrete inputs: a jump of 5 from
position 0 on a 2-character buffer clamps to 2 ≤ 2, and an advance from
position 0 stays within bounds. -/
theorem c3_cursor_bounds_witness :
    (2 : Nat) ≤ List.length ['a', 'b'] ∧ (next ['a', 'b'] 0).2 ≤ List.length ['a', 'b'] :=
  ⟨(c3_cursor_bounds_amended ['a', 'b'] 0 5 2).1 (by decide),
   (c3_cursor_bounds_amended ['a', 'b'] 0 0 0).2 (by decide)⟩

/-- C6: the two raw texts that are exactly a quoted `TRUE` or `FALSE`
classify as Bool and not as String, even though the generic quoted-span
String rule also matches them — the Bool rule is tested first. -/
theorem c6_quoted_bool_wins :
    Value.determine_type "\"TRUE\"".data = .Bool
    ∧ Value.determine_type "\"FALSE\"".data = .Bool
    ∧ stringDeterminate "\"TRUE\"".data = true
    ∧ stringDeterminate "\"FALSE\"".data = true
    ∧ Value.determine_type "\"TRUE\"".data ≠ .String
    ∧ Value.determine_type "\"FALSE\"".data ≠ .String := by
  decide

/-- C7 (counterexample): on the line `a=b=c`, the returned text is `a=c`,
which still contains an `=`: the `=` that the skip lands on is kept, so not
every `=` is excluded together with its follower (that reading would give
`a`). -/
theorem c7_stray_eq_counterexample :
    read_remaining_line c7content 0 = .ok ("a=c".data, 5)
    ∧ '=' ∈ "a=c".data := by
  decide

/-- C7 (amended): during `read_remaining_line`, an `=` inspected at the top
of a loop iteration is skipped together with the single character after it;
the character the skip lands on is kept even if it is another `=`; all other
characters up to the line terminator are kept, and the result is trimmed
(`lineSpecEq` is exactly that description).  The segment must not end in
`=`, since then the skip would jump over the terminator. -/
theorem c7_stray_eq_amended (content : List Char) (pos : Nat) (s rest : List Char) (t : Char)
    (hdrop : content.drop pos = s ++ t :: rest)
    (ht : t = '\n' ∨ t = '\r')
    (hn : '\n' ∉ s) (hr : '\r' ∉ s)
    (hlast : s.getLast? ≠ some '=') :
    read_remaining_line content pos = .ok (trimChars (lineSpecEq s), pos + s.length) :=
  read_remaining_line_ok content pos s rest t hdrop ht hn hr hlast

/-- C7 (witness): the amended description evaluated on the concrete line
`a=b=c`. -/
theorem c7_stray_eq_witness :
    read_remaining_line c7content 0 =
      .ok (trimChars (lineSpecEq "a=b=c".data), 0 + ("a=b=c".data).length) :=
  c7_stray_eq_amended c7content 0 "a=b=c".data [] '\n' (by decide) (by decide)
    (by decide) (by decide) (by decide)

end Pvl

namespace Pvl

/-! ### Classification helpers for C9 and C10 -/

/-- A digit differs from any non-digit character. -/
lemma digit_ne {d : Char} (hd : d.isDigit = true) {c : Char} (hc : c.isDigit = false) :
    d ≠ c := by
  intro h
  rw [h] at hd
  rw [hd] at hc
  exact Bool.noConfusion hc

/-- A digit is neither a letter nor an underscore. -/
lemma digit_not_alphaUnd {d : Char} (hd : d.isDigit = true) : isAlphaUnd d = false := by
  have h1 : '0' ≤ d ∧ d ≤ '9' := by simpa [Char.isDigit] using hd
  have hv : 48 ≤ d.toNat ∧ d.toNat ≤ 57 := by
    rcases h1 with ⟨a, b⟩
    rw [Char.le_def] at a b
    exact ⟨a, b⟩
  have hch : d.toNat = d.val.toNat := rfl
  simp only [isAlphaUnd, Bool.or_eq_false_iff, decide_eq_false_iff_not, Char.isAlpha,
    Char.isUpper, Char.isLower, Bool.and_eq_false_iff, decide_eq_false_iff_not]
  refine ⟨⟨Or.inl ?_, Or.inl ?_⟩, ?_⟩
  · intro h
    have h2 : (65 : UInt32).toNat ≤ d.val.toNat := h
    have h65 : (65 : UInt32).toNat = 65 := by decide
    omega
  · intro h
    have h2 : (97 : UInt32).toNat ≤ d.val.toNat := h
    have h97 : (97 : UInt32).toNat = 97 := by decide
    omega
  · intro h
    subst h
    exact absurd hv (by decide)

/-- The Bool, String, Array and Flag rules all fail on a text whose first
character is not a quote, not an opening parenthesis, and not a
letter/underscore. -/
lemma det_false_of_head (s : List Char)
    (h : ∀ c, s.head? = some c → c ≠ '"' ∧ c ≠ '(' ∧ isAlphaUnd c = false) :
    boolDeterminate s = false ∧ stringDeterminate s = false
    ∧ arrayDeterminate s = false ∧ flagDeterminate s = false := by
  cases s with
  | nil => exact ⟨by decide, rfl, rfl, rfl⟩
  | cons c rest =>
    have hc := h c rfl
    refine ⟨?_, ?_, ?_, ?_⟩
    · simp only [boolDeterminate, decide_eq_false_iff_not]
      rintro (h1 | h1) <;>
        exact hc.1 (by simpa using congrArg List.head? h1)
    · simp [stringDeterminate, hc.1]
    · simp [arrayDeterminate, hc.2.1]
    · simp [flagDeterminate, List.takeWhile_cons, hc.2.2]

end Pvl

namespace Pvl

/-- Only the first classification rule produces Bool, so a Bool-classified
raw text matches `^"(TRUE|FALSE)"$`. -/
lemma boolDet_of_type {s : List Char} (h : Value.determine_type s = .Bool) :
    boolDeterminate s = true := by
  by_cases hb : boolDeterminate s = true
  · exact hb
  · exfalso
    unfold Value.determine_type at h
    rw [if_neg hb] at h
    split_ifs at h

/-- C9: every Value classified Bool carries a raw text that is exactly a
quoted `TRUE` or `FALSE`, which Rust's `parse::<bool>()` (expecting exactly
`true` or `false`) rejects — so `parse_bool` always fails with
`ValueTypeParseError` on Bool-classified values. -/
theorem c9_parse_bool_always_fails (raw : List Char)
    (h : (Value.new raw).value_type = .Bool) :
    (Value.new raw).parse_bool = .err .valueTypeParseError := by
  have hb : boolDeterminate raw = true := boolDet_of_type h
  have hr : raw = "\"TRUE\"".data ∨ raw = "\"FALSE\"".data := by
    simpa [boolDeterminate] using hb
  rcases hr with rfl | rfl <;> decide

/-- C9 (witness): the quoted `TRUE` value is classified Bool and its
`parse_bool` fails with `ValueTypeParseError`. -/
theorem c9_parse_bool_witness :
    (Value.new "\"TRUE\"".data).parse_bool = .err .valueTypeParseError :=
  c9_parse_bool_always_fails "\"TRUE\"".data (by decide)

/-- C10: a raw text of optional leading minus signs followed by exactly one
digit (and nothing else) is classified Undetermined — the integer pattern
`^-*[0-9]+[^#]+` needs at least one further non-`#` character after the
first digit — while a minus run followed by two or more digits classifies
as Integer. -/
theorem c10_single_digit_undetermined (m : Nat) (d c : Char) (ds : List Char)
    (hd : d.isDigit = true) (hc : c.isDigit = true)
    (hds : ∀ x ∈ ds, x.isDigit = true) :
    Value.determine_type (List.replicate m '-' ++ [d]) = .Undetermined
    ∧ Value.determine_type (List.replicate m '-' ++ d :: c :: ds) = .Integer := by
  have hd_dash : d ≠ '-' := digit_ne hd (by decide)
  have hc_hash : c ≠ '#' := digit_ne hc (by decide)
  constructor
  · have hhead : ∀ c0, (List.replicate m '-' ++ [d]).head? = some c0 →
        c0 ≠ '"' ∧ c0 ≠ '(' ∧ isAlphaUnd c0 = false := by
      intro c0 h0
      have hc0 : c0 = '-' ∨ c0 = d := by
        cases m with
        | zero =>
          right
          have h1 : d = c0 := by simpa using h0
          exact h1.symm
        | succ k =>
          left
          have h1 : '-' = c0 := by simpa [List.replicate_succ] using h0
          exact h1.symm
      rcases hc0 with rfl | rfl
      · exact ⟨by decide, by decide, by decide⟩
      · exact ⟨digit_ne hd (by decide), digit_ne hd (by decide), digit_not_alphaUnd hd⟩
    obtain ⟨hb, hs, ha, hf⟩ := det_false_of_head (List.replicate m '-' ++ [d]) hhead
    have hdw : (List.replicate m '-' ++ [d]).dropWhile (fun x => decide (x = '-')) = [d] := by
      rw [dropWhile_replicate_append _ '-' (by decide)]
      simp [List.dropWhile_cons, hd_dash]
    have hfl : floatDeterminate (List.replicate m '-' ++ [d]) = false := by
      simp only [floatDeterminate, hdw]
      simp [List.dropWhile_cons, hd]
    have hin : integerDeterminate (List.replicate m '-' ++ [d]) = false := by
      simp only [integerDeterminate, hdw]
    have hbm : bitmaskDeterminate (List.replicate m '-' ++ [d]) = false := by
      cases m with
      | zero =>
        by_cases hrd : isRadixDig d = true
        · simp [bitmaskDeterminate, List.dropWhile_cons, hrd]
        · have hdh : d ≠ '#' := digit_ne hd (by decide)
          simp [bitmaskDeterminate, List.dropWhile_cons, hrd, hdh]
      | succ k =>
        have hrr : isRadixDig '-' = false := by decide
        simp [bitmaskDeterminate, List.replicate_succ, List.dropWhile_cons, hrr]
    unfold Value.determine_type
    rw [hb, hs, ha, hfl, hin, hf, hbm]
    simp
  · have hhead : ∀ c0, (List.replicate m '-' ++ d :: c :: ds).head? = some c0 →
        c0 ≠ '"' ∧ c0 ≠ '(' ∧ isAlphaUnd c0 = false := by
      intro c0 h0
      have hc0 : c0 = '-' ∨ c0 = d := by
        cases m with
        | zero =>
          right
          have h1 : d = c0 := by simpa using h0
          exact h1.symm
        | succ k =>
          left
          have h1 : '-' = c0 := by simpa [List.replicate_succ] using h0
          exact h1.symm
      rcases hc0 with rfl | rfl
      · exact ⟨by decide, by decide, by decide⟩
      · exact ⟨digit_ne hd (by decide), digit_ne hd (by decide), digit_not_alphaUnd hd⟩
    obtain ⟨hb, hs, ha, hf⟩ :=
      det_false_of_head (List.replicate m '-' ++ d :: c :: ds) hhead
    have hdw : (List.replicate m '-' ++ d :: c :: ds).dropWhile (fun x => decide (x = '-')) =
        d :: c :: ds := by
      rw [dropWhile_replicate_append _ '-' (by decide)]
      simp [List.dropWhile_cons, hd_dash]
    have halldig : (d :: c :: ds).dropWhile Char.isDigit = [] := by
      rw [List.dropWhile_eq_nil_iff]
      intro x hx
      rcases List.mem_cons.mp hx with rfl | hx1
      · exact hd
      · rcases List.mem_cons.mp hx1 with rfl | hx2
        · exact hc
        · exact hds x hx2
    have hfl : floatDeterminate (List.replicate m '-' ++ d :: c :: ds) = false := by
      simp only [floatDeterminate, hdw, halldig]
    have hin : integerDeterminate (List.replicate m '-' ++ d :: c :: ds) = true := by
      simp only [integerDeterminate, hdw]
      simp [hd, hc_hash]
    unfold Value.determine_type
    rw [hb, hs, ha, hfl, hin]
    simp

/-- C10 (witness): `-5` is Undetermined and `55` is Integer, by the general
theorem at concrete digits. -/
theorem c10_single_digit_witness :
    Value.determine_type (List.replicate 1 '-' ++ ['5']) = .Undetermined
    ∧ Value.determine_type (List.replicate 0 '-' ++ '5' :: '5' :: []) = .Integer :=
  ⟨(c10_single_digit_undetermined 1 '5' '5' [] (by decide) (by decide) (by simp)).1,
   (c10_single_digit_undetermined 0 '5' '5' [] (by decide) (by decide) (by simp)).2⟩

end Pvl

namespace Pvl

/-- C5: under its preconditions (at a line start, not at a continuation
line), `read_symbol` reads the characters up to the first line terminator or
`=`, trims them, and classifies the trimmed text in the fixed order: empty →
BlankLine; leading `^` → Pointer (full text kept); exactly `GROUP` → Group;
exactly `OBJECT` → Object; otherwise → Key.  `symbolClassSpec` is that
classification written from the spec. -/
theorem c5_read_symbol_classifies (content : List Char) (pos : Nat)
    (s rest : List Char) (t : Char)
    (hcont : is_at_value_line_continuation content pos = .ok false)
    (hstart : is_at_line_start content pos = .ok true)
    (hdrop : content.drop pos = s ++ t :: rest)
    (hs : ∀ c ∈ s, c ≠ '\n' ∧ c ≠ '\r' ∧ c ≠ '=')
    (ht : t = '\n' ∨ t = '\r' ∨ t = '=') :
    read_symbol content pos = .ok (symbolClassSpec (trimChars s), pos + s.length) :=
  read_symbol_ok content pos s rest t hcont hstart hdrop hs ht

/-- C5 (witness): the classification evaluated on a concrete key line. -/
theorem c5_read_symbol_witness :
    read_symbol "SOMETHING_INTERESTING = 12345 FOOBARBAZ\n".data 0 =
      .ok (symbolClassSpec (trimChars "SOMETHING_INTERESTING ".data),
        0 + ("SOMETHING_INTERESTING ".data).length) :=
  c5_read_symbol_classifies "SOMETHING_INTERESTING = 12345 FOOBARBAZ\n".data 0
    "SOMETHING_INTERESTING ".data " 12345 FOOBARBAZ\n".data '='
    (by decide) (by decide) (by decide) (by decide) (by decide)

/-- C8 (counterexample): at a line start on the short input `AB`, neither a
Syntax error, nor a Programming error, nor a Symbol is produced: the
continuation probe hits end-of-input and its `unwrap` panics. -/
theorem c8_entry_checks_counterexample :
    is_at_line_start "AB".data 0 = .ok true
    ∧ read_symbol "AB".data 0 = .panic
    ∧ read_key_value_pair_raw "AB".data 0 = .panic := by
  decide

/-- C8 (amended): `read_symbol` and `read_key_value_pair_raw` fail with the
Syntax error when the cursor is at a value-line continuation, and with the
Programming error when the cursor is not at a line start; at a line start
otherwise they return a Symbol provided the continuation probe stays in
bounds and the symbol text is terminated by `=` or a line terminator before
end of input — outside those conditions the internal unwraps panic instead. -/
theorem c8_entry_checks_amended :
    (∀ (content : List Char) (pos : Nat),
      is_at_value_line_continuation content pos = .ok true →
        read_symbol content pos = .err (.syn contMsg)
        ∧ read_key_value_pair_raw content pos = .err (.syn contMsg))
    ∧ (∀ (content : List Char) (pos : Nat),
      is_at_line_start content pos = .ok false →
        read_symbol content pos = .err (.programming progMsg)
        ∧ read_key_value_pair_raw content pos = .err (.programming progMsg))
    ∧ (∀ (content : List Char) (pos : Nat) (s rest : List Char) (t : Char),
      is_at_value_line_continuation content pos = .ok false →
      is_at_line_start content pos = .ok true →
      content.drop pos = s ++ t :: rest →
      (∀ c ∈ s, c ≠ '\n' ∧ c ≠ '\r' ∧ c ≠ '=') →
      (t = '\n' ∨ t = '\r' ∨ t = '=') →
      ∃ sym, read_symbol content pos = .ok (sym, pos + s.length)) := by
  refine ⟨?_, ?_, ?_⟩
  · intro content pos h
    constructor
    · simp only [read_symbol, h]
    · simp only [read_key_value_pair_raw, h]
  · intro content pos h
    have hf : is_at_value_line_continuation content pos = .ok false :=
      iavlc_not_line_start h
    constructor
    · simp only [read_symbol, hf, h]
    · simp only [read_key_value_pair_raw, hf, h]
  · intro content pos s rest t hcont hstart hdrop hs ht
    exact ⟨symbolClassSpec (trimChars s), read_symbol_ok content pos s rest t
      hcont hstart hdrop hs ht⟩

/-- C8 (witness): the three behaviors at concrete inputs — a continuation
line gives the Syntax error, a mid-line position gives the Programming
error, and an ordinary key line at a line start gives a Symbol. -/
theorem c8_entry_checks_witness :
    read_symbol (List.replicate 37 ' ' ++ "X\n".data) 0 = .err (.syn contMsg)
    ∧ read_symbol "A\nB".data 1 = .err (.programming progMsg)
    ∧ ∃ sym, read_symbol "SOMETHING_ELSE = 12345 MORE PADDING HERE\n".data 0 =
        .ok (sym, 0 + ("SOMETHING_ELSE ".data).length) :=
  ⟨(c8_entry_checks_amended.1 (List.replicate 37 ' ' ++ "X\n".data) 0 (by decide)).1,
   (c8_entry_checks_amended.2.1 "A\nB".data 1 (by decide)).1,
   c8_entry_checks_amended.2.2 "SOMETHING_ELSE = 12345 MORE PADDING HERE\n".data 0
     "SOMETHING_ELSE ".data " 12345 MORE PADDING HERE\n".data '='
     (by decide) (by decide) (by decide) (by decide) (by decide)⟩

end Pvl

namespace Pvl

/-- C4 (counterexample): with CRLF line terminators the stitching does not
happen.  In `c4content` (`KEY = a\r\n` followed by a line of 37 spaces and
`b\r\n`), the second line begins at a line start with the fixed run of 37
blank columns and has trimmed remainder `b` — a continuation line following
a value line — yet the produced value raw text is `a`, not the
concatenation `ab`: after the first line's `\r` the reader lands on the
`\n`, where the 37-column probe sees the `\n` first and reports no
continuation. -/
theorem c4_stitching_counterexample :
    read_key_value_pair_raw c4content 0 =
      .ok (⟨.Key "KEY".data, Value.new "a".data⟩, 8)
    ∧ is_at_line_start c4content 9 = .ok true
    ∧ (c4content.drop 9).take 37 = List.replicate 37 ' '
    ∧ trimChars ((c4content.drop 9).drop 37) = "b".data
    ∧ "a".data ≠ "a".data ++ "b".data := by
  decide

end Pvl

namespace Pvl

/-- Each continuation line holds at least its 37 blanks and terminator. -/
lemma contJoin_length_pos (r : List Char) (rs : List (List Char)) :
    38 ≤ (contJoin (r :: rs)).length := by
  simp [contJoin, contLine]
  omega

/-- There are no more continuation lines than characters in their join. -/
lemma conts_length_le_contJoin (conts : List (List Char)) :
    conts.length ≤ (contJoin conts).length := by
  induction conts with
  | nil => simp [contJoin]
  | cons r rs ih =>
    have h1 : contJoin (r :: rs) = contLine r ++ contJoin rs := by
      simp [contJoin]
    rw [h1, List.length_append]
    have h2 : 1 ≤ (contLine r).length := by simp [contLine]
    simp only [List.length_cons]
    omega

/-- C4 (amended): with LF line terminators, when a run of continuation
lines (each beginning with the fixed 37 blank columns, its remainder free of
`=`, CR and LF) follows a value line `key= value` whose value text is free
of `=`, CR and LF, and the document's first 37 columns are not all blank,
`read_key_value_pair_raw` produces a value whose raw text is the naive
concatenation of each line's trimmed remainder, in line order, and stops at
the end of input. -/
theorem c4_stitching_amended (key v1 : List Char) (conts : List (List Char))
    (hkey : ∀ c ∈ key, c ≠ '\n' ∧ c ≠ '\r' ∧ c ≠ '=')
    (hv1n : '\n' ∉ v1) (hv1r : '\r' ∉ v1) (hv1e : '=' ∉ v1)
    (hconts : ∀ r ∈ conts, '\n' ∉ r ∧ '\r' ∉ r ∧ '=' ∉ r)
    (hne : conts ≠ [])
    (h37 : (key ++ '=' :: ' ' :: (v1 ++ '\n' :: contJoin conts)).take 37 ≠
      List.replicate 37 ' ') :
    ∃ sym,
      read_key_value_pair_raw (key ++ '=' :: ' ' :: (v1 ++ '\n' :: contJoin conts)) 0 =
        .ok (⟨sym, Value.new (trimChars v1 ++ (conts.map trimChars).flatten)⟩,
          (key ++ '=' :: ' ' :: (v1 ++ '\n' :: contJoin conts)).length) := by
  refine ⟨symbolClassSpec (trimChars key), ?_⟩
  set content := key ++ '=' :: ' ' :: (v1 ++ '\n' :: contJoin conts) with hcontent
  obtain ⟨r0, rs0, hconts_eq⟩ : ∃ r0 rs0, conts = r0 :: rs0 := by
    cases conts with
    | nil => exact absurd rfl hne
    | cons a b => exact ⟨a, b, rfl⟩
  have hjlen : 38 ≤ (contJoin conts).length := by
    rw [hconts_eq]; exact contJoin_length_pos r0 rs0
  have hclen : content.length =
      key.length + 2 + v1.length + 1 + (contJoin conts).length := by
    rw [hcontent]
    simp [List.length_append, List.length_cons]
    omega
  have hstart0 : is_at_line_start content 0 = .ok true := by
    simp [is_at_line_start]
  have hiavlc0 : is_at_value_line_continuation content 0 = .ok false := by
    rw [iavlc_at_line_start hstart0 (by omega)]
    simp only [List.drop_zero]
    rw [decide_eq_false h37]
  have hdrop0 : content.drop 0 = key ++ '=' :: (' ' :: (v1 ++ '\n' :: contJoin conts)) := by
    simp [hcontent]
  have hsym := read_symbol_ok content 0 key (' ' :: (v1 ++ '\n' :: contJoin conts)) '='
    hiavlc0 hstart0 hdrop0 hkey (Or.inr (Or.inr rfl))
  have hdropk : content.drop (0 + key.length) =
      ('=' :: ' ' :: v1) ++ '\n' :: contJoin conts := by
    have h1 := drop_add_of_drop hdrop0
    rw [h1]
    simp
  have hn1 : '\n' ∉ '=' :: ' ' :: v1 := by
    intro h
    rcases List.mem_cons.mp h with h1 | h1
    · exact absurd h1 (by decide)
    · rcases List.mem_cons.mp h1 with h2 | h2
      · exact absurd h2 (by decide)
      · exact hv1n h2
  have hr1 : '\r' ∉ '=' :: ' ' :: v1 := by
    intro h
    rcases List.mem_cons.mp h with h1 | h1
    · exact absurd h1 (by decide)
    · rcases List.mem_cons.mp h1 with h2 | h2
      · exact absurd h2 (by decide)
      · exact hv1r h2
  have hlast1 : ('=' :: ' ' :: v1).getLast? ≠ some '=' := by
    cases v1 with
    | nil => decide
    | cons a l =>
      rw [List.getLast?_cons_cons, List.getLast?_cons_cons]
      exact getLast?_ne_of_not_mem hv1e
  have hline := read_remaining_line_ok content (0 + key.length) ('=' :: ' ' :: v1)
    (contJoin conts) '\n' hdropk (Or.inl rfl) hn1 hr1 hlast1
  have hspec1 : lineSpecEq ('=' :: ' ' :: v1) = v1 := by
    cases v1 with
    | nil => exact lineSpecEq_eq_two ' '
    | cons a l =>
      rw [lineSpecEq_eq_cons3]
      rw [lineSpecEq_no_eq l (fun h => hv1e (List.mem_cons_of_mem a h))]
  rw [hspec1] at hline
  have hdropv : content.drop (0 + key.length + ('=' :: ' ' :: v1).length) =
      '\n' :: contJoin conts := drop_add_of_drop hdropk
  have hdropc : content.drop (0 + key.length + ('=' :: ' ' :: v1).length + 1) =
      contJoin conts := drop_succ_of_drop hdropv
  have hgetnl : content.get? (0 + key.length + ('=' :: ' ' :: v1).length + 1 - 1) =
      some '\n' := by
    simpa using get?_of_drop content _ hdropv
  have hjle : (contJoin conts).length ≤ content.length := by
    have h2 := congrArg List.length hdropc
    rw [List.length_drop] at h2
    omega
  have hcl := cont_loop_spec content conts (content.length + 1)
    (0 + key.length + ('=' :: ' ' :: v1).length + 1) (trimChars v1)
    hdropc hconts (by omega) hgetnl
    (by have := conts_length_le_contJoin conts; omega)
  simp only [read_key_value_pair_raw, hiavlc0, hstart0, hsym, hline, hcl]

end Pvl

namespace Pvl

/-- C4 (witness): stitching evaluated on the concrete input
`FOO= bar\n` followed by one continuation line holding `baz`. -/
theorem c4_stitching_witness :
    ∃ sym,
      read_key_value_pair_raw
          ("FOO".data ++ '=' :: ' ' :: ("bar".data ++ '\n' :: contJoin ["baz".data])) 0 =
        .ok (⟨sym, Value.new (trimChars "bar".data ++ (["baz".data].map trimChars).flatten)⟩,
          ("FOO".data ++ '=' :: ' ' :: ("bar".data ++ '\n' :: contJoin ["baz".data])).length) :=
  c4_stitching_amended "FOO".data "bar".data ["baz".data]
    (by decide) (by decide) (by decide) (by decide) (by decide)
    (by decide) (by decide)

end Pvl
